import Mathlib

/-!
Shallow embedding of the metrics pipeline of
`analyze_campaigns.py` and `analyze_customers.py`.

Modelling conventions:
* a tabular dataset is a `List` of row structures;
* numeric columns are `ℚ` (amounts) or `ℕ` (count-like columns that the
  data model declares non-negative integers); calendar dates are day
  numbers in `ℤ` (so subtracting two dates is the whole-day difference
  that `(a - b).dt.days` computes);
* a column on which `dropna` is applied is an `Option` field (`none` is
  a missing value);
* the host language turns a division by zero of aggregate sums into a
  NaN/Inf sentinel; the embedding models that outcome as `none` of an
  `Option ℚ` (`pdiv`);
* `idxmax`/`idxmin` on an empty aggregate raises; the embedding models
  the raised condition as the `error` branch of an `Except`.
-/

/-- Division as performed on aggregate sums: a zero divisor yields the
host-language NaN/Inf sentinel, modelled as `none`. -/
def pdiv (a b : ℚ) : Option ℚ := if b = 0 then none else some (a / b)

/-- Embeds `drop_duplicates` keeps the first occurrence of each row, in order.
`seen` accumulates the rows already emitted. -/
def dedupFirstAux [DecidableEq α] (seen : List α) : List α → List α
  | [] => []
  | x :: xs =>
    if x ∈ seen then dedupFirstAux seen xs
    else x :: dedupFirstAux (x :: seen) xs

/-- Embeds `df.drop_duplicates()`: remove exact-duplicate rows, keeping first
occurrences. -/
def dedupFirst [DecidableEq α] (l : List α) : List α := dedupFirstAux [] l

/-- Embeds `groupby` iterates group keys in ascending order (`sort=True`). -/
def sortKeys (l : List ℕ) : List ℕ := l.insertionSort (· ≤ ·)

/-- Embeds `Series.max()` over a list of day numbers (only used on non-empty
lists; the `0` for `[]` is an arbitrary default). -/
def listMax : List ℤ → ℤ
  | [] => 0
  | [x] => x
  | x :: y :: xs => max x (listMax (y :: xs))

namespace Campaign

/-- One row of the cleaned-or-raw campaign table
(`marketing_campaigns.csv`): {Date, Campaign ID, Impressions, Clicks,
Conversions, Spend, Revenue}.  `Clicks` and `Spend` are the `dropna`
columns, hence `Option`. -/
structure Row where
  date : ℤ
  campaignId : ℕ
  impressions : ℕ
  clicks : Option ℕ
  conversions : ℕ
  spend : Option ℚ
  revenue : ℚ
deriving DecidableEq

/-- Embeds `load_and_clean_data` of `analyze_campaigns.py`:
`df.dropna(subset=['Clicks', 'Spend'])` then `df = df[df['Spend'] > 0]`
(date parsing is the identity in the embedding). -/
def clean (l : List Row) : List Row :=
  (l.filter (fun r => r.clicks.isSome && r.spend.isSome)).filter
    (fun r => decide ((0 : ℚ) < r.spend.getD 0))

/-- Embeds `df['Impressions'].sum()`. -/
def totalImpressions (l : List Row) : ℚ :=
  (l.map (fun r => (r.impressions : ℚ))).sum

/-- Embeds `df['Clicks'].sum()`. -/
def totalClicks (l : List Row) : ℚ :=
  (l.map (fun r => ((r.clicks.getD 0 : ℕ) : ℚ))).sum

/-- Embeds `df['Conversions'].sum()`. -/
def totalConversions (l : List Row) : ℚ :=
  (l.map (fun r => (r.conversions : ℚ))).sum

/-- Embeds `df['Spend'].sum()`. -/
def totalSpend (l : List Row) : ℚ :=
  (l.map (fun r => r.spend.getD 0)).sum

/-- Embeds `df['Revenue'].sum()`. -/
def totalRevenue (l : List Row) : ℚ :=
  (l.map (fun r => r.revenue)).sum

/-- Embeds `ctr = (total_clicks / total_impressions) * 100`. -/
def ctr (l : List Row) : Option ℚ :=
  (pdiv (totalClicks l) (totalImpressions l)).map (· * 100)

/-- Embeds `conversion_rate = (total_conversions / total_clicks) * 100`. -/
def conversionRate (l : List Row) : Option ℚ :=
  (pdiv (totalConversions l) (totalClicks l)).map (· * 100)

/-- Embeds `cpl = total_spend / total_conversions`. -/
def cpl (l : List Row) : Option ℚ :=
  pdiv (totalSpend l) (totalConversions l)

/-- Embeds `roi = ((total_revenue - total_spend) / total_spend) * 100`. -/
def roi (l : List Row) : Option ℚ :=
  (pdiv (totalRevenue l - totalSpend l) (totalSpend l)).map (· * 100)

/-- Embeds `cac = cpl  # Approximation`. -/
def cac (l : List Row) : Option ℚ := cpl l

/-- The distinct Campaign IDs, in the ascending order `groupby` uses. -/
def campaignKeys (l : List Row) : List ℕ :=
  sortKeys (dedupFirst (l.map (fun r => r.campaignId)))

/-- The rows of one `groupby('Campaign ID')` group. -/
def groupRows (l : List Row) (k : ℕ) : List Row :=
  l.filter (fun r => r.campaignId == k)

/-- Per-group `'Spend': 'sum'` of `campaign_stats`. -/
def groupSpend (l : List Row) (k : ℕ) : ℚ := totalSpend (groupRows l k)

/-- Per-group `'Revenue': 'sum'` of `campaign_stats`. -/
def groupRevenue (l : List Row) (k : ℕ) : ℚ := totalRevenue (groupRows l k)

/-- Per-group
`ROI = ((Revenue - Spend) / Spend) * 100` of `campaign_stats`. -/
def groupROI (l : List Row) (k : ℕ) : Option ℚ :=
  (pdiv (groupRevenue l k - groupSpend l k) (groupSpend l k)).map (· * 100)

/-- The one failure `calculate_metrics` can raise before the metrics
mapping is written: `idxmax`/`idxmin` on an empty (or all-NaN) `ROI`
column raises; the spec taxonomy calls this `EmptyDatasetError`. -/
inductive MetricsError
  | emptyDataset
deriving DecidableEq

/-- The flat metrics mapping serialized to `campaign_metrics.json`. -/
structure Metrics where
  ctrVal : Option ℚ
  conversionRateVal : Option ℚ
  cplVal : Option ℚ
  roiVal : Option ℚ
  cacVal : Option ℚ
  topCampaign : ℕ
  topCampaignROI : ℚ
  bottomCampaign : ℕ
  bottomCampaignROI : ℚ
deriving DecidableEq

/-- Embeds `calculate_metrics` of `analyze_campaigns.py`: the overall ratios,
the per-campaign aggregate table, `idxmax`/`idxmin` over its `ROI`
column (first occurrence wins a tie; groups whose `ROI` is the NaN
sentinel are skipped, and an empty remainder raises), and the metrics
mapping.  The mapping is only produced (written) in the `ok` branch;
the `error` branch models the exception that aborts the run before
`campaign_metrics.json` is opened. -/
def calculateMetrics (l : List Row) : Except MetricsError Metrics :=
  let pairs := (campaignKeys l).map (fun k => (k, groupROI l k))
  let valid := pairs.filterMap (fun p => p.2.map (fun v => (p.1, v)))
  match valid with
  | [] => .error .emptyDataset
  | p :: ps =>
    let top := ps.foldl (fun best q => if best.2 < q.2 then q else best) p
    let bot := ps.foldl (fun best q => if q.2 < best.2 then q else best) p
    .ok
      { ctrVal := ctr l
        conversionRateVal := conversionRate l
        cplVal := cpl l
        roiVal := roi l
        cacVal := cac l
        topCampaign := top.1
        topCampaignROI := top.2
        bottomCampaign := bot.1
        bottomCampaignROI := bot.2 }

end Campaign

namespace Customer

/-- One row of the customer-transaction table
(`customer_transactions.csv`): {Customer ID, Order Date, Signup Date,
Order Amount, Category}.  `Customer ID` and `Order Amount` are the
`dropna` columns, hence `Option`. -/
structure Row where
  customerId : Option ℕ
  orderDate : ℤ
  signupDate : ℤ
  amount : Option ℚ
  category : ℕ
deriving DecidableEq

/-- Embeds `load_and_clean_data` of `analyze_customers.py`:
`drop_duplicates()`, then
`dropna(subset=['Order Amount', 'Customer ID'])`, then
`df = df[df['Order Amount'] > 0]` (date parsing is the identity in the
embedding). -/
def clean (l : List Row) : List Row :=
  ((dedupFirst l).filter (fun r => r.amount.isSome && r.customerId.isSome)).filter
    (fun r => decide ((0 : ℚ) < r.amount.getD 0))

/-- The distinct non-null Customer IDs in the ascending order
`groupby('Customer ID')` uses. -/
def customerKeys (l : List Row) : List ℕ :=
  sortKeys (dedupFirst (l.filterMap (fun r => r.customerId)))

/-- Embeds `active_customers = df['Customer ID'].nunique()`. -/
def activeCustomers (l : List Row) : ℕ := (customerKeys l).length

/-- Embeds `buying_freq = len(df) / active_customers`. -/
def buyingFrequency (l : List Row) : Option ℚ :=
  pdiv l.length (activeCustomers l)

/-- Embeds `total_revenue = df['Order Amount'].sum()`. -/
def totalRevenue (l : List Row) : ℚ :=
  (l.map (fun r => r.amount.getD 0)).sum

/-- The rows of one `groupby('Customer ID')` group. -/
def groupRows (l : List Row) (k : ℕ) : List Row :=
  l.filter (fun r => r.customerId == some k)

/-- Per-customer `groupby('Customer ID').size()`. -/
def orderCount (l : List Row) (k : ℕ) : ℕ := (groupRows l k).length

/-- Embeds `retained_customers = order_counts[order_counts > 1].count()`. -/
def retainedCount (l : List Row) : ℕ :=
  (customerKeys l).countP (fun k => decide (1 < orderCount l k))

/-- Embeds `retention_rate = (retained_customers / active_customers) * 100`. -/
def retentionRate (l : List Row) : Option ℚ :=
  (pdiv (retainedCount l) (activeCustomers l)).map (· * 100)

/-- Per-customer
`last_order_date = df.groupby('Customer ID')['Order Date'].max()`. -/
def lastOrder (l : List Row) (k : ℕ) : ℤ :=
  listMax ((groupRows l k).map (fun r => r.orderDate))

/-- Embeds `current_date = df['Order Date'].max()` — the dataset maximum, not
wall-clock time. -/
def currentDate (l : List Row) : ℤ :=
  listMax (l.map (fun r => r.orderDate))

/-- Embeds `days_inactive = (current_date - last_order_date).dt.days`. -/
def daysInactive (l : List Row) (k : ℕ) : ℤ :=
  currentDate l - lastOrder l k

/-- Embeds `churned_customers = days_inactive[days_inactive > 180].count()`. -/
def churnedCount (l : List Row) : ℕ :=
  (customerKeys l).countP (fun k => decide (180 < daysInactive l k))

/-- Embeds `churn_rate = (churned_customers / active_customers) * 100`. -/
def churnRate (l : List Row) : Option ℚ :=
  (pdiv (churnedCount l) (activeCustomers l)).map (· * 100)

/-- Embeds `customer_revenue = df.groupby('Customer ID')['Order Amount'].sum()`
as the list of per-customer sums, in key order. -/
def customerRevenue (l : List Row) : List ℚ :=
  (customerKeys l).map (fun k =>
    ((groupRows l k).map (fun r => r.amount.getD 0)).sum)

/-- The linear-interpolation step of `Series.quantile`: on the sorted
values `s`, with `i = floor(pos)`, interpolate between the `i`-th and
`(i+1)`-th sorted values (the `(i+1)`-th defaults to the `i`-th at the
right end, where the fraction is 0 anyway). -/
def interpolate (s : List ℚ) (pos : ℚ) : ℚ :=
  s.getD ⌊pos⌋.toNat 0
    + (pos - ((⌊pos⌋.toNat : ℕ) : ℚ))
      * (s.getD (⌊pos⌋.toNat + 1) (s.getD ⌊pos⌋.toNat 0) - s.getD ⌊pos⌋.toNat 0)

/-- Embeds `Series.quantile(q)` with the default linear interpolation: on the
sorted values, `pos = q*(n-1)` and the result interpolates between the
bracketing sorted values.  An empty series yields the NaN sentinel,
modelled as `none`. -/
def quantile (xs : List ℚ) (q : ℚ) : Option ℚ :=
  if xs.isEmpty then none
  else some (interpolate (xs.insertionSort (· ≤ ·)) (q * ((xs.length : ℚ) - 1)))

/-- Embeds `high_cutoff = customer_revenue.quantile(0.8)`. -/
def highCutoff (l : List Row) : Option ℚ :=
  quantile (customerRevenue l) (4 / 5)

/-- Embeds `med_cutoff = customer_revenue.quantile(0.5)`. -/
def medCutoff (l : List Row) : Option ℚ :=
  quantile (customerRevenue l) (1 / 2)

/-- Embeds `customer_revenue[customer_revenue >= high_cutoff].count()` (every
comparison with the NaN cutoff of an empty table is false). -/
def highValueCount (l : List Row) : ℕ :=
  match highCutoff l with
  | none => 0
  | some hc => (customerRevenue l).countP (fun x => decide (hc ≤ x))

/-- Embeds `customer_revenue[(customer_revenue < high_cutoff) &
(customer_revenue >= med_cutoff)].count()`. -/
def medValueCount (l : List Row) : ℕ :=
  match highCutoff l, medCutoff l with
  | some hc, some mc =>
    (customerRevenue l).countP (fun x => decide (x < hc) && decide (mc ≤ x))
  | _, _ => 0

/-- Embeds `customer_revenue[customer_revenue < med_cutoff].count()`. -/
def lowValueCount (l : List Row) : ℕ :=
  match medCutoff l with
  | none => 0
  | some mc => (customerRevenue l).countP (fun x => decide (x < mc))

end Customer

/-! ### Concrete datasets used to instantiate the theorems -/

/-- A raw campaign dataset in which every row has Spend ≤ 0 (or missing):
every row is dropped by cleaning. -/
def exAllBadSpend : List Campaign.Row :=
  [⟨0, 1, 10, some 3, 1, some 0, 5⟩,
   ⟨1, 1, 20, some 4, 2, some (-2), 6⟩,
   ⟨2, 2, 30, none, 3, some (-1), 7⟩]

/-- A one-row cleaned campaign dataset with a positive impression count. -/
def exCtr : List Campaign.Row := [⟨0, 1, 10, some 3, 1, some 2, 5⟩]

/-- A cleaned one-row campaign dataset whose only row has
Impressions = 0 and Clicks = 0 (so Clicks ≤ Impressions holds). -/
def exZeroImp : List Campaign.Row := [⟨0, 1, 0, some 0, 0, some 1, 0⟩]

/-- A two-row cleaned campaign dataset for the CTR range property. -/
def exRange : List Campaign.Row :=
  [⟨0, 1, 10, some 3, 1, some 2, 5⟩, ⟨1, 2, 20, some 20, 2, some 3, 6⟩]

/-- A cleaned campaign dataset whose two rows share one Campaign ID. -/
def exOneCampaign : List Campaign.Row :=
  [⟨0, 7, 10, some 1, 1, some 2, 5⟩, ⟨1, 7, 20, some 2, 1, some 3, 6⟩]

/-- A cleaned two-customer dataset: customer 1's last (and only) order is
200 days before customer 2's last order, which attains the dataset
maximum. -/
def exChurn : List Customer.Row :=
  [⟨some 1, 0, 0, some 5, 0⟩, ⟨some 2, 200, 0, some 5, 0⟩]

/-- A cleaned two-customer dataset used to instantiate the implicit
churn bound. -/
def exChurnBound : List Customer.Row :=
  [⟨some 1, 0, 0, some 5, 0⟩, ⟨some 2, 300, 0, some 5, 0⟩]

/-- A cleaned three-customer dataset with order counts {1, 2, 3}. -/
def exRetention : List Customer.Row :=
  [⟨some 1, 0, 0, some 5, 0⟩,
   ⟨some 2, 0, 0, some 5, 0⟩, ⟨some 2, 1, 0, some 5, 0⟩,
   ⟨some 3, 0, 0, some 5, 0⟩, ⟨some 3, 1, 0, some 5, 0⟩,
   ⟨some 3, 2, 0, some 5, 0⟩]

/-- A cleaned five-customer dataset in which every customer's total
Order Amount is 10. -/
def exEqualRevenue : List Customer.Row :=
  [⟨some 1, 0, 0, some 10, 0⟩, ⟨some 2, 0, 0, some 10, 0⟩,
   ⟨some 3, 0, 0, some 10, 0⟩, ⟨some 4, 0, 0, some 10, 0⟩,
   ⟨some 5, 0, 0, some 10, 0⟩]

/-! ### Helper lemmas about the embedding's building blocks -/

theorem pdiv_of_ne (a b : ℚ) (hb : b ≠ 0) : pdiv a b = some (a / b) := by
  simp [pdiv, hb]

theorem pdiv_of_eq (a b : ℚ) (hb : b = 0) : pdiv a b = none := by
  simp [pdiv, hb]

theorem mem_dedupFirstAux [DecidableEq α] (seen : List α) (l : List α) (a : α) :
    a ∈ dedupFirstAux seen l ↔ a ∈ l ∧ a ∉ seen := by
  induction l generalizing seen with
  | nil => simp [dedupFirstAux]
  | cons x xs ih =>
    by_cases hx : x ∈ seen
    · rw [dedupFirstAux, if_pos hx, ih]
      simp only [List.mem_cons]
      constructor
      · rintro ⟨h1, h2⟩; exact ⟨Or.inr h1, h2⟩
      · rintro ⟨rfl | h1, h2⟩
        · exact absurd hx h2
        · exact ⟨h1, h2⟩
    · rw [dedupFirstAux, if_neg hx]
      simp only [List.mem_cons, ih]
      constructor
      · rintro (rfl | ⟨h1, h2⟩)
        · exact ⟨Or.inl rfl, hx⟩
        · exact ⟨Or.inr h1, fun hs => h2 (Or.inr hs)⟩
      · rintro ⟨rfl | h1, h2⟩
        · exact Or.inl rfl
        · by_cases hax : a = x
          · exact Or.inl hax
          · exact Or.inr ⟨h1, fun hs => hs.elim hax h2⟩

theorem nodup_dedupFirstAux [DecidableEq α] (seen : List α) (l : List α) :
    (dedupFirstAux seen l).Nodup := by
  induction l generalizing seen with
  | nil => simp [dedupFirstAux]
  | cons x xs ih =>
    by_cases hx : x ∈ seen
    · rw [dedupFirstAux, if_pos hx]; exact ih seen
    · rw [dedupFirstAux, if_neg hx]
      refine List.nodup_cons.2 ⟨?_, ih (x :: seen)⟩
      intro hmem
      exact ((mem_dedupFirstAux _ _ _).1 hmem).2 (List.mem_cons_self _ _)

theorem dedupFirstAux_eq_self [DecidableEq α] (seen : List α) (l : List α)
    (hn : l.Nodup) (hs : ∀ x ∈ l, x ∉ seen) : dedupFirstAux seen l = l := by
  induction l generalizing seen with
  | nil => rfl
  | cons x xs ih =>
    have hx : x ∉ seen := hs x (List.mem_cons_self _ _)
    rw [dedupFirstAux, if_neg hx]
    congr 1
    refine ih (x :: seen) (List.Nodup.of_cons hn) ?_
    intro y hy
    simp only [List.mem_cons]
    rintro (rfl | hyseen)
    · exact (List.nodup_cons.1 hn).1 hy
    · exact hs y (List.mem_cons_of_mem _ hy) hyseen

theorem mem_dedupFirst [DecidableEq α] (l : List α) (a : α) :
    a ∈ dedupFirst l ↔ a ∈ l := by
  simp [dedupFirst, mem_dedupFirstAux]

theorem nodup_dedupFirst [DecidableEq α] (l : List α) : (dedupFirst l).Nodup :=
  nodup_dedupFirstAux [] l

theorem dedupFirst_eq_self [DecidableEq α] (l : List α) (hn : l.Nodup) :
    dedupFirst l = l :=
  dedupFirstAux_eq_self [] l hn (by simp)

theorem le_listMax (l : List ℤ) (x : ℤ) (hx : x ∈ l) : x ≤ listMax l := by
  induction l with
  | nil => cases hx
  | cons a t ih =>
    cases t with
    | nil =>
      have hxa : x = a := by simpa using hx
      subst hxa
      simp [listMax]
    | cons b u =>
      rcases List.mem_cons.1 hx with rfl | hx2
      · exact le_max_left _ _
      · exact le_trans (ih hx2) (le_max_right _ _)

theorem listMax_mem (l : List ℤ) (hl : l ≠ []) : listMax l ∈ l := by
  induction l with
  | nil => exact absurd rfl hl
  | cons a t ih =>
    cases t with
    | nil => simp [listMax]
    | cons b u =>
      rcases le_total a (listMax (b :: u)) with h | h
      · have : listMax (a :: b :: u) = listMax (b :: u) := max_eq_right h
        rw [this]
        exact List.mem_cons_of_mem _ (ih (by simp))
      · have : listMax (a :: b :: u) = a := max_eq_left h
        rw [this]
        exact List.mem_cons_self _ _

theorem mem_sortKeys (l : List ℕ) (a : ℕ) : a ∈ sortKeys l ↔ a ∈ l :=
  List.mem_insertionSort _

theorem length_sortKeys (l : List ℕ) : (sortKeys l).length = l.length :=
  List.length_insertionSort _ _

theorem sortKeys_perm (l : List ℕ) : List.Perm (sortKeys l) l :=
  List.perm_insertionSort _ _

theorem sortKeys_nodup (l : List ℕ) (h : l.Nodup) : (sortKeys l).Nodup :=
  ((sortKeys_perm l).nodup_iff).2 h

theorem getD_of_lt (l : List ℚ) (i : ℕ) (d : ℚ) (h : i < l.length) :
    l.getD i d = l.get ⟨i, h⟩ := by
  simp [List.getD_eq_getElem?_getD, List.getElem?_eq_getElem h]

theorem getD_of_le (l : List ℚ) (i : ℕ) (d : ℚ) (h : l.length ≤ i) :
    l.getD i d = d := by
  simp [List.getD_eq_getElem?_getD, List.getElem?_eq_none h]

theorem sorted_getD_le (s : List ℚ) (hs : s.Sorted (· ≤ ·)) (i j : ℕ)
    (hij : i ≤ j) (hj : j < s.length) : s.getD i 0 ≤ s.getD j 0 := by
  have hi : i < s.length := lt_of_le_of_lt hij hj
  rw [getD_of_lt _ _ _ hi, getD_of_lt _ _ _ hj]
  rcases eq_or_lt_of_le hij with rfl | hlt
  · exact le_refl _
  · exact hs.rel_get_of_lt (Fin.mk_lt_mk.2 hlt)

/-! ### Campaign-domain claims -/

/-- C7: the Loader/Cleaner is idempotent: applying the campaign cleaning
policy (drop missing Clicks/Spend, then drop Spend ≤ 0) or the customer
cleaning policy (drop exact duplicates, then rows missing Customer ID or
Order Amount, then Order Amount ≤ 0) a second time to an already-cleaned
dataset yields an identical dataset with no further rows dropped. -/
theorem cleaning_idempotent :
    (∀ l : List Campaign.Row, Campaign.clean (Campaign.clean l) = Campaign.clean l) ∧
    (∀ l : List Customer.Row, Customer.clean (Customer.clean l) = Customer.clean l) := by
  constructor
  · intro l
    have hp1 : ∀ r ∈ Campaign.clean l, (r.clicks.isSome && r.spend.isSome) = true := by
      intro r hr
      exact (List.mem_filter.1 (List.mem_filter.1 hr).1).2
    have hp2 : ∀ r ∈ Campaign.clean l,
        decide ((0 : ℚ) < r.spend.getD 0) = true := by
      intro r hr
      exact (List.mem_filter.1 hr).2
    show ((Campaign.clean l).filter (fun r => r.clicks.isSome && r.spend.isSome)).filter
        (fun r => decide ((0 : ℚ) < r.spend.getD 0)) = Campaign.clean l
    rw [List.filter_eq_self.2 hp1, List.filter_eq_self.2 hp2]
  · intro l
    have hnd : (Customer.clean l).Nodup :=
      (((nodup_dedupFirst l).filter _).filter _)
    have hded : dedupFirst (Customer.clean l) = Customer.clean l :=
      dedupFirst_eq_self _ hnd
    have hp1 : ∀ r ∈ Customer.clean l, (r.amount.isSome && r.customerId.isSome) = true := by
      intro r hr
      exact (List.mem_filter.1 (List.mem_filter.1 hr).1).2
    have hp2 : ∀ r ∈ Customer.clean l,
        decide ((0 : ℚ) < r.amount.getD 0) = true := by
      intro r hr
      exact (List.mem_filter.1 hr).2
    show ((dedupFirst (Customer.clean l)).filter
        (fun r => r.amount.isSome && r.customerId.isSome)).filter
        (fun r => decide ((0 : ℚ) < r.amount.getD 0)) = Customer.clean l
    rw [hded, List.filter_eq_self.2 hp1, List.filter_eq_self.2 hp2]

/-- C2: `ctr()` yields the division-by-zero sentinel (`none`, the NaN/Inf
the host language produces, never a silent zero) exactly when total
Impressions = 0, and otherwise `100 × total Clicks / total Impressions`. -/
theorem Campaign.ctr_spec (l : List Campaign.Row) :
    (Campaign.totalImpressions l = 0 → Campaign.ctr l = none) ∧
    (Campaign.totalImpressions l ≠ 0 →
      Campaign.ctr l = some (100 * Campaign.totalClicks l / Campaign.totalImpressions l)) := by
  constructor
  · intro h
    simp [Campaign.ctr, pdiv_of_eq _ _ h]
  · intro h
    rw [Campaign.ctr, pdiv_of_ne _ _ h]
    show some (Campaign.totalClicks l / Campaign.totalImpressions l * 100) = _
    rw [div_mul_eq_mul_div, mul_comm]

/-- Witness for C2: on the empty dataset total Impressions is 0 and the
sentinel is produced; on a one-row dataset with 3 clicks over 10
impressions the CTR is 30. -/
theorem Campaign.ctr_spec_witness :
    Campaign.ctr [] = none ∧ Campaign.ctr exCtr = some 30 := by
  constructor
  · exact (Campaign.ctr_spec []).1 (by norm_num [Campaign.totalImpressions])
  · rw [(Campaign.ctr_spec exCtr).2
      (by norm_num [Campaign.totalImpressions, exCtr])]
    norm_num [Campaign.totalClicks, Campaign.totalImpressions, exCtr]

/-- C6 counterexample: a cleaned one-row dataset with Impressions = 0,
Clicks = 0 and Spend = 1 satisfies Clicks ≤ Impressions on every row,
yet `ctr()` is the NaN sentinel, not a number in [0, 100]. -/
theorem Campaign.ctr_range_counterexample :
    Campaign.clean exZeroImp = exZeroImp ∧
    (∀ r ∈ exZeroImp, r.clicks.getD 0 ≤ r.impressions) ∧
    Campaign.ctr exZeroImp = none ∧
    ¬ ∃ x, Campaign.ctr exZeroImp = some x ∧ 0 ≤ x ∧ x ≤ 100 := by
  have hnone : Campaign.ctr exZeroImp = none := by
    norm_num [Campaign.ctr, pdiv, Campaign.totalImpressions, exZeroImp]
  refine ⟨by decide, by decide, hnone, ?_⟩
  rintro ⟨x, hx, -⟩
  rw [hnone] at hx
  cases hx

/-- C6 (amended): for every cleaned campaign dataset with positive total
Impressions in which every row has Clicks ≤ Impressions, `ctr()` is a
defined value lying in the closed interval [0, 100]. -/
theorem Campaign.ctr_range_amended (l : List Campaign.Row)
    (himp : 0 < Campaign.totalImpressions l)
    (hrow : ∀ r ∈ l, r.clicks.getD 0 ≤ r.impressions) :
    ∃ x, Campaign.ctr l = some x ∧ 0 ≤ x ∧ x ≤ 100 := by
  have hne : Campaign.totalImpressions l ≠ 0 := ne_of_gt himp
  refine ⟨Campaign.totalClicks l / Campaign.totalImpressions l * 100, ?_, ?_, ?_⟩
  · simp [Campaign.ctr, pdiv_of_ne _ _ hne]
  · have hc : 0 ≤ Campaign.totalClicks l := by
      refine List.sum_nonneg ?_
      intro x hx
      rcases List.mem_map.1 hx with ⟨r, -, rfl⟩
      positivity
    positivity
  · have hci : Campaign.totalClicks l ≤ Campaign.totalImpressions l := by
      refine List.sum_le_sum ?_
      intro r hr
      exact_mod_cast hrow r hr
    have hdiv : Campaign.totalClicks l / Campaign.totalImpressions l ≤ 1 :=
      (div_le_one himp).2 hci
    linarith

/-- Witness for C6 (amended): a concrete two-row cleaned dataset with
Clicks ≤ Impressions on each row has its CTR inside [0, 100]. -/
theorem Campaign.ctr_range_amended_witness :
    ∃ x, Campaign.ctr exRange = some x ∧ 0 ≤ x ∧ x ≤ 100 :=
  Campaign.ctr_range_amended exRange
    (by norm_num [Campaign.totalImpressions, exRange]) (by decide)

/-- C1: if every row of a raw campaign dataset has Spend ≤ 0 (or
missing), cleaning yields zero rows and `calculate_metrics` stops with
the `EmptyDatasetError`-class condition (the `idxmax` of the empty
per-campaign aggregate raises) before any metrics mapping is emitted. -/
theorem Campaign.allNonpositiveSpend_error (l : List Campaign.Row)
    (h : ∀ r ∈ l, r.spend.getD 0 ≤ 0) :
    Campaign.clean l = [] ∧
    Campaign.calculateMetrics (Campaign.clean l) = .error .emptyDataset := by
  have hclean : Campaign.clean l = [] := by
    rw [Campaign.clean, List.filter_eq_nil_iff]
    intro r hr
    have hr0 : r ∈ l := List.mem_of_mem_filter hr
    simpa using not_lt.2 (h r hr0)
  refine ⟨hclean, ?_⟩
  rw [hclean]
  rfl

/-- Witness for C1: the concrete all-bad-spend raw dataset cleans to
zero rows and the metrics computation reports the empty-dataset error. -/
theorem Campaign.allNonpositiveSpend_error_witness :
    Campaign.clean exAllBadSpend = [] ∧
    Campaign.calculateMetrics (Campaign.clean exAllBadSpend) = .error .emptyDataset :=
  Campaign.allNonpositiveSpend_error exAllBadSpend (by decide)

/-- C5: when the cleaned campaign dataset has exactly one distinct
Campaign ID, the ROI recomputed from the per-campaign aggregate's summed
Spend and Revenue equals the overall `roi()`. -/
theorem Campaign.groupROI_single (l : List Campaign.Row) (k : ℕ)
    (h : Campaign.campaignKeys l = [k]) :
    Campaign.groupROI l k = Campaign.roi l := by
  have hall : ∀ r ∈ l, r.campaignId = k := by
    intro r hr
    have hmem : r.campaignId ∈ Campaign.campaignKeys l := by
      rw [Campaign.campaignKeys, mem_sortKeys, mem_dedupFirst]
      exact List.mem_map.2 ⟨r, hr, rfl⟩
    rw [h] at hmem
    simpa using hmem
  have hrows : Campaign.groupRows l k = l := by
    rw [Campaign.groupRows, List.filter_eq_self]
    intro r hr
    simpa using hall r hr
  rw [Campaign.groupROI, Campaign.groupSpend, Campaign.groupRevenue, hrows]
  rfl

/-- Witness for C5: a two-row dataset whose rows share Campaign ID 7 has
its single-group aggregate ROI equal to the overall ROI. -/
theorem Campaign.groupROI_single_witness :
    Campaign.groupROI exOneCampaign 7 = Campaign.roi exOneCampaign :=
  Campaign.groupROI_single exOneCampaign 7 (by decide)

/-! ### Customer-domain helper lemmas -/

theorem Customer.mem_clean_isSome (l : List Customer.Row)
    (hcl : Customer.clean l = l) (r : Customer.Row) (hr : r ∈ l) :
    r.customerId.isSome = true := by
  rw [← hcl] at hr
  have h2 := (List.mem_filter.1 (List.mem_filter.1 hr).1).2
  have h3 : r.amount.isSome = true ∧ r.customerId.isSome = true := by
    simpa using h2
  exact h3.2

theorem Customer.mem_customerKeys (l : List Customer.Row) (k : ℕ) :
    k ∈ Customer.customerKeys l ↔ ∃ r ∈ l, r.customerId = some k := by
  rw [Customer.customerKeys, mem_sortKeys, mem_dedupFirst, List.mem_filterMap]

/-- In every non-empty cleaned customer dataset some customer's last
order attains the dataset maximum Order Date, so that customer's
`daysInactive` is 0. -/
theorem Customer.exists_daysInactive_zero (l : List Customer.Row)
    (hcl : Customer.clean l = l) (hne : l ≠ []) :
    ∃ k ∈ Customer.customerKeys l, Customer.daysInactive l k = 0 := by
  have hmapne : l.map (fun r => r.orderDate) ≠ [] := by simpa using hne
  have hmax : Customer.currentDate l ∈ l.map (fun r => r.orderDate) :=
    listMax_mem _ hmapne
  obtain ⟨r, hr, hrd⟩ := List.mem_map.1 hmax
  obtain ⟨k, hk⟩ :=
    Option.isSome_iff_exists.1 (Customer.mem_clean_isSome l hcl r hr)
  refine ⟨k, (Customer.mem_customerKeys l k).2 ⟨r, hr, hk⟩, ?_⟩
  have hrg : r ∈ Customer.groupRows l k := by
    rw [Customer.groupRows, List.mem_filter]
    exact ⟨hr, by simp [hk]⟩
  have hle1 : Customer.currentDate l ≤ Customer.lastOrder l k := by
    rw [← hrd]
    exact le_listMax _ _ (List.mem_map.2 ⟨r, hrg, rfl⟩)
  have hle2 : Customer.lastOrder l k ≤ Customer.currentDate l := by
    have hgne : (Customer.groupRows l k).map (fun r => r.orderDate) ≠ [] :=
      List.ne_nil_of_mem (List.mem_map.2 ⟨r, hrg, rfl⟩)
    obtain ⟨r2, hr2, hr2d⟩ := List.mem_map.1 (listMax_mem _ hgne)
    rw [Customer.lastOrder, ← hr2d]
    exact le_listMax _ _
      (List.mem_map.2 ⟨r2, List.mem_of_mem_filter hr2, rfl⟩)
  rw [Customer.daysInactive]
  omega

/-! ### Customer-domain claims -/

/-- C8: for every non-empty cleaned customer dataset, `retentionRate()`
equals 100 × (count of distinct customers with more than one order row)
/ `activeCustomers()` (the exact rational is stored; rounding is display
only). -/
theorem Customer.retentionRate_spec (l : List Customer.Row)
    (h : Customer.activeCustomers l ≠ 0) :
    Customer.retentionRate l
      = some (100 * (Customer.retainedCount l : ℚ) / (Customer.activeCustomers l : ℚ)) := by
  have hq : ((Customer.activeCustomers l : ℚ)) ≠ 0 := Nat.cast_ne_zero.2 h
  rw [Customer.retentionRate, pdiv_of_ne _ _ hq]
  show some ((Customer.retainedCount l : ℚ) / (Customer.activeCustomers l : ℚ) * 100) = _
  rw [div_mul_eq_mul_div, mul_comm]

/-- Witness for C8: the three-customer dataset with order counts
{1, 2, 3} stores retention rate 200/3 exactly. -/
theorem Customer.retentionRate_spec_witness :
    Customer.activeCustomers exRetention = 3 ∧
    Customer.retainedCount exRetention = 2 ∧
    Customer.retentionRate exRetention = some (200 / 3) := by
  refine ⟨by decide, by decide, ?_⟩
  rw [Customer.retentionRate_spec exRetention (by decide)]
  rw [show Customer.retainedCount exRetention = 2 from by decide,
      show Customer.activeCustomers exRetention = 3 from by decide]
  norm_num

/-- C10: in every non-empty cleaned customer dataset the customer whose
last Order Date attains the dataset maximum has `daysInactive` = 0 and
is not counted as churned, so the churned count is at most
`activeCustomers()` − 1 and `churnRate()` is strictly below 100. -/
theorem Customer.churn_bound (l : List Customer.Row)
    (hcl : Customer.clean l = l) (hne : l ≠ []) :
    (∃ k ∈ Customer.customerKeys l, Customer.daysInactive l k = 0) ∧
    Customer.churnedCount l ≤ Customer.activeCustomers l - 1 ∧
    ∃ c, Customer.churnRate l = some c ∧ c < 100 := by
  obtain ⟨k, hk, hd⟩ := Customer.exists_daysInactive_zero l hcl hne
  have hlt : Customer.churnedCount l < Customer.activeCustomers l := by
    rw [Customer.churnedCount, Customer.activeCustomers]
    refine lt_of_le_of_ne (List.countP_le_length _) ?_
    intro h
    have h2 := List.countP_eq_length.1 h k hk
    rw [decide_eq_true_eq, hd] at h2
    exact absurd h2 (by decide)
  have hact0 : Customer.activeCustomers l ≠ 0 := by
    have hne2 : Customer.customerKeys l ≠ [] := List.ne_nil_of_mem hk
    rw [Customer.activeCustomers]
    exact fun h => hne2 (List.length_eq_zero.1 h)
  have hq : ((Customer.activeCustomers l : ℚ)) ≠ 0 := Nat.cast_ne_zero.2 hact0
  refine ⟨⟨k, hk, hd⟩, by omega, ?_⟩
  refine ⟨(Customer.churnedCount l : ℚ) / (Customer.activeCustomers l : ℚ) * 100, ?_, ?_⟩
  · rw [Customer.churnRate, pdiv_of_ne _ _ hq]
    rfl
  · have hpos : (0 : ℚ) < (Customer.activeCustomers l : ℚ) :=
      Nat.cast_pos.2 (Nat.pos_of_ne_zero hact0)
    have hdiv : (Customer.churnedCount l : ℚ) / (Customer.activeCustomers l : ℚ) < 1 :=
      (div_lt_one hpos).2 (by exact_mod_cast hlt)
    linarith

/-- Witness for C10: on a concrete cleaned two-customer dataset the
bound holds (one customer is 0 days inactive, churn rate below 100). -/
theorem Customer.churn_bound_witness :
    (∃ k ∈ Customer.customerKeys exChurnBound,
      Customer.daysInactive exChurnBound k = 0) ∧
    Customer.churnedCount exChurnBound ≤ Customer.activeCustomers exChurnBound - 1 ∧
    ∃ c, Customer.churnRate exChurnBound = some c ∧ c < 100 :=
  Customer.churn_bound exChurnBound (by decide) (by decide)

/-- C3 counterexample: the claimed scenario — exactly two customers whose
last orders are 200 and 10 whole days before the dataset maximum Order
Date — is unsatisfiable: the maximum Order Date of a cleaned dataset is
attained by some customer's last order, so one of the two gaps must be
0, never 10.  The claim's universally quantified scenario is therefore
vacuous as stated. -/
theorem Customer.churn_scenario_impossible :
    ¬ ∃ (l : List Customer.Row) (a b : ℕ), Customer.clean l = l ∧
      Customer.customerKeys l = [a, b] ∧
      Customer.daysInactive l a = 200 ∧ Customer.daysInactive l b = 10 := by
  rintro ⟨l, a, b, hcl, hkeys, ha, hb⟩
  have hne : l ≠ [] := by
    intro h
    subst h
    have h2 : ([] : List ℕ) = [a, b] := hkeys
    simp at h2
  obtain ⟨k, hk, hd⟩ := Customer.exists_daysInactive_zero l hcl hne
  rw [hkeys] at hk
  rcases List.mem_cons.1 hk with rfl | hk2
  · rw [hd] at ha
    exact absurd ha (by decide)
  · rcases List.mem_cons.1 hk2 with rfl | hk3
    · rw [hd] at hb
      exact absurd hb (by decide)
    · cases hk3

/-- C3 (amended): `churnRate()` uses the dataset maximum Order Date as
`currentDate`, counts a customer as churned iff
`currentDate − lastOrderDate` exceeds 180 whole days, and returns
100 × churned / active; for two customers whose last orders are 200 and
0 days before the maximum Order Date (the attainable version of the
spec's 200/10 scenario), `churnRate()` = 50. -/
theorem Customer.churnRate_scenario (l : List Customer.Row) (a b : ℕ)
    (hkeys : Customer.customerKeys l = [a, b])
    (ha : Customer.daysInactive l a = 200)
    (hb : Customer.daysInactive l b = 0) :
    Customer.churnRate l = some 50 := by
  have p1 : decide (180 < Customer.daysInactive l a) = true := by
    rw [ha]
    rfl
  have p2 : decide (180 < Customer.daysInactive l b) = false := by
    rw [hb]
    rfl
  have hcc : Customer.churnedCount l = 1 := by
    rw [Customer.churnedCount, hkeys]
    simp only [List.countP_cons, List.countP_nil, p1, p2]
    norm_num
  have hac : Customer.activeCustomers l = 2 := by
    rw [Customer.activeCustomers, hkeys]
    rfl
  rw [Customer.churnRate, hcc, hac, pdiv_of_ne _ _ (by norm_num)]
  show some ((1 : ℕ) / ((2 : ℕ) : ℚ) * 100) = some 50
  norm_num

/-- Witness for C3 (amended): the concrete two-customer dataset with
last orders 200 and 0 days before the maximum has churn rate 50. -/
theorem Customer.churnRate_scenario_witness :
    Customer.churnRate exChurn = some 50 :=
  Customer.churnRate_scenario exChurn 1 2 (by decide) (by decide) (by decide)

/-! ### Quantile lemmas -/

theorem interpolate_of_all_eq (s : List ℚ) (v pos : ℚ) (hall : ∀ x ∈ s, x = v)
    (h0 : 0 ≤ pos) (hub : pos ≤ (s.length : ℚ) - 1) :
    Customer.interpolate s pos = v := by
  have hf : (0 : ℤ) ≤ ⌊pos⌋ := Int.floor_nonneg.2 h0
  have e : ((⌊pos⌋.toNat : ℕ) : ℚ) = ((⌊pos⌋ : ℤ) : ℚ) := by
    exact_mod_cast Int.toNat_of_nonneg hf
  have hle : ((⌊pos⌋.toNat : ℕ) : ℚ) ≤ pos := by
    rw [e]
    exact Int.floor_le pos
  have hlt : ⌊pos⌋.toNat < s.length := by
    have hq : ((⌊pos⌋.toNat : ℕ) : ℚ) < (s.length : ℚ) := by linarith
    exact_mod_cast hq
  have ha : s.getD ⌊pos⌋.toNat 0 = v := by
    rw [getD_of_lt _ _ _ hlt]
    exact hall _ (s.get_mem _ _)
  have hb : s.getD (⌊pos⌋.toNat + 1) (s.getD ⌊pos⌋.toNat 0) = v := by
    by_cases h2 : ⌊pos⌋.toNat + 1 < s.length
    · rw [getD_of_lt _ _ _ h2]
      exact hall _ (s.get_mem _ _)
    · rw [getD_of_le s (⌊pos⌋.toNat + 1) _ (by omega)]
      exact ha
  rw [Customer.interpolate, hb, ha]
  ring

theorem quantile_of_all_eq (xs : List ℚ) (v q : ℚ) (hne : xs ≠ [])
    (hall : ∀ x ∈ xs, x = v) (hq0 : 0 ≤ q) (hq1 : q ≤ 1) :
    Customer.quantile xs q = some v := by
  rw [Customer.quantile, if_neg (by simp [hne])]
  congr 1
  have hlen : 1 ≤ xs.length := List.length_pos.2 hne
  have hlenq : (1 : ℚ) ≤ (xs.length : ℚ) := by exact_mod_cast hlen
  apply interpolate_of_all_eq
  · intro x hx
    exact hall x ((List.mem_insertionSort _).1 hx)
  · exact mul_nonneg hq0 (by linarith)
  · rw [List.length_insertionSort]
    have := mul_le_of_le_one_left (show (0:ℚ) ≤ (xs.length : ℚ) - 1 by linarith) hq1
    linarith

theorem interpolate_mono (s : List ℚ) (hs : s.Sorted (· ≤ ·)) (p1 p2 : ℚ)
    (h0 : 0 ≤ p1) (h12 : p1 ≤ p2) (hub : p2 ≤ (s.length : ℚ) - 1) :
    Customer.interpolate s p1 ≤ Customer.interpolate s p2 := by
  have h02 : 0 ≤ p2 := le_trans h0 h12
  have hf1 : (0 : ℤ) ≤ ⌊p1⌋ := Int.floor_nonneg.2 h0
  have hf2 : (0 : ℤ) ≤ ⌊p2⌋ := Int.floor_nonneg.2 h02
  have e1 : ((⌊p1⌋.toNat : ℕ) : ℚ) = ((⌊p1⌋ : ℤ) : ℚ) := by
    exact_mod_cast Int.toNat_of_nonneg hf1
  have e2 : ((⌊p2⌋.toNat : ℕ) : ℚ) = ((⌊p2⌋ : ℤ) : ℚ) := by
    exact_mod_cast Int.toNat_of_nonneg hf2
  have hle1 : ((⌊p1⌋.toNat : ℕ) : ℚ) ≤ p1 := by
    rw [e1]
    exact Int.floor_le p1
  have hlt1 : p1 < ((⌊p1⌋.toNat : ℕ) : ℚ) + 1 := by
    rw [e1]
    exact Int.lt_floor_add_one p1
  have hle2 : ((⌊p2⌋.toNat : ℕ) : ℚ) ≤ p2 := by
    rw [e2]
    exact Int.floor_le p2
  have hi1lt : ⌊p1⌋.toNat < s.length := by
    have hq : ((⌊p1⌋.toNat : ℕ) : ℚ) < (s.length : ℚ) := by linarith
    exact_mod_cast hq
  have hi2lt : ⌊p2⌋.toNat < s.length := by
    have hq : ((⌊p2⌋.toNat : ℕ) : ℚ) < (s.length : ℚ) := by linarith
    exact_mod_cast hq
  have hii : ⌊p1⌋.toNat ≤ ⌊p2⌋.toNat :=
    Int.toNat_le_toNat (Int.floor_le_floor h12)
  have hab : ∀ i : ℕ, i < s.length →
      s.getD i 0 ≤ s.getD (i + 1) (s.getD i 0) := by
    intro i hi
    by_cases h2 : i + 1 < s.length
    · rw [getD_of_lt _ _ _ h2]
      have h3 := sorted_getD_le s hs i (i + 1) (Nat.le_succ i) h2
      rwa [getD_of_lt _ _ _ h2] at h3
    · rw [getD_of_le s (i + 1) _ (by omega)]
  rcases eq_or_lt_of_le hii with heq | hlt
  · simp only [Customer.interpolate, ← heq]
    have hba := hab _ hi1lt
    have hprod := mul_nonneg (sub_nonneg.2 h12) (sub_nonneg.2 hba)
    set A := s.getD ⌊p1⌋.toNat 0 with hA
    set B := s.getD (⌊p1⌋.toNat + 1) A with hB
    have hexp : A + (p2 - ((⌊p1⌋.toNat : ℕ) : ℚ)) * (B - A)
        - (A + (p1 - ((⌊p1⌋.toNat : ℕ) : ℚ)) * (B - A)) = (p2 - p1) * (B - A) := by
      ring
    linarith
  · simp only [Customer.interpolate]
    set A1 := s.getD ⌊p1⌋.toNat 0 with hA1
    set B1 := s.getD (⌊p1⌋.toNat + 1) A1 with hB1
    set A2 := s.getD ⌊p2⌋.toNat 0 with hA2
    set B2 := s.getD (⌊p2⌋.toNat + 1) A2 with hB2
    have hba1 : A1 ≤ B1 := hab _ hi1lt
    have hba2 : A2 ≤ B2 := hab _ hi2lt
    have hfr1 : p1 - ((⌊p1⌋.toNat : ℕ) : ℚ) ≤ 1 := by linarith
    have key1 : A1 + (p1 - ((⌊p1⌋.toNat : ℕ) : ℚ)) * (B1 - A1) ≤ B1 := by
      have hprod := mul_nonneg (show (0:ℚ) ≤ 1 - (p1 - ((⌊p1⌋.toNat : ℕ) : ℚ)) by linarith)
        (sub_nonneg.2 hba1)
      have hexp : B1 - (A1 + (p1 - ((⌊p1⌋.toNat : ℕ) : ℚ)) * (B1 - A1))
          = (1 - (p1 - ((⌊p1⌋.toNat : ℕ) : ℚ))) * (B1 - A1) := by ring
      linarith
    have hi11 : ⌊p1⌋.toNat + 1 < s.length := by omega
    have key2 : B1 ≤ A2 := by
      have eB : B1 = s.getD (⌊p1⌋.toNat + 1) 0 := by
        rw [hB1, getD_of_lt _ _ _ hi11, getD_of_lt _ _ _ hi11]
      rw [eB, hA2]
      exact sorted_getD_le s hs (⌊p1⌋.toNat + 1) ⌊p2⌋.toNat (by omega) hi2lt
    have key3 : A2 ≤ A2 + (p2 - ((⌊p2⌋.toNat : ℕ) : ℚ)) * (B2 - A2) := by
      have hprod := mul_nonneg (show (0:ℚ) ≤ p2 - ((⌊p2⌋.toNat : ℕ) : ℚ) by linarith)
        (sub_nonneg.2 hba2)
      linarith
    linarith

theorem quantile_mono (xs : List ℚ) (q1 q2 : ℚ) (hne : xs ≠ [])
    (h0 : 0 ≤ q1) (h12 : q1 ≤ q2) (h1 : q2 ≤ 1) :
    ∃ u v, Customer.quantile xs q1 = some u ∧ Customer.quantile xs q2 = some v ∧ u ≤ v := by
  have hlen : 1 ≤ xs.length := List.length_pos.2 hne
  have hlenq : (1 : ℚ) ≤ (xs.length : ℚ) := by exact_mod_cast hlen
  refine ⟨Customer.interpolate (xs.insertionSort (· ≤ ·)) (q1 * ((xs.length : ℚ) - 1)),
    Customer.interpolate (xs.insertionSort (· ≤ ·)) (q2 * ((xs.length : ℚ) - 1)),
    ?_, ?_, ?_⟩
  · rw [Customer.quantile, if_neg (by simp [hne])]
  · rw [Customer.quantile, if_neg (by simp [hne])]
  · apply interpolate_mono
    · exact List.sorted_insertionSort _ xs
    · exact mul_nonneg h0 (by linarith)
    · exact mul_le_mul_of_nonneg_right h12 (by linarith)
    · rw [List.length_insertionSort]
      have := mul_le_of_le_one_left (show (0:ℚ) ≤ (xs.length : ℚ) - 1 by linarith) h1
      linarith

/-- The per-customer revenue table has one entry per distinct customer. -/
theorem Customer.customerRevenue_length (l : List Customer.Row) :
    (Customer.customerRevenue l).length = Customer.activeCustomers l := by
  rw [Customer.customerRevenue, List.length_map, Customer.activeCustomers]

/-- C4: when all per-customer total Order Amounts are equal, both
quantile cutoffs equal that common value, every customer is High (the
`≥` comparison is satisfied), and the Medium and Low counts are 0. -/
theorem Customer.segment_all_equal (l : List Customer.Row) (v : ℚ)
    (hne : Customer.customerRevenue l ≠ [])
    (hall : ∀ x ∈ Customer.customerRevenue l, x = v) :
    Customer.highCutoff l = some v ∧ Customer.medCutoff l = some v ∧
    Customer.highValueCount l = Customer.activeCustomers l ∧
    Customer.medValueCount l = 0 ∧ Customer.lowValueCount l = 0 := by
  have hhc : Customer.highCutoff l = some v :=
    quantile_of_all_eq _ v _ hne hall (by norm_num) (by norm_num)
  have hmc : Customer.medCutoff l = some v :=
    quantile_of_all_eq _ v _ hne hall (by norm_num) (by norm_num)
  refine ⟨hhc, hmc, ?_, ?_, ?_⟩
  · simp only [Customer.highValueCount, hhc]
    have hcnt : List.countP (fun x => decide (v ≤ x)) (Customer.customerRevenue l)
        = (Customer.customerRevenue l).length := by
      rw [List.countP_eq_length]
      intro x hx
      rw [hall x hx]
      simp
    rw [hcnt, Customer.customerRevenue_length]
  · simp only [Customer.medValueCount, hhc, hmc]
    rw [List.countP_eq_zero]
    intro x hx
    rw [hall x hx]
    simp
  · simp only [Customer.lowValueCount, hmc]
    rw [List.countP_eq_zero]
    intro x hx
    rw [hall x hx]
    simp

/-- The per-customer revenue table of the all-equal example dataset. -/
theorem exEqualRevenue_revenue :
    Customer.customerRevenue exEqualRevenue = [10, 10, 10, 10, 10] := by
  rw [Customer.customerRevenue,
    show Customer.customerKeys exEqualRevenue = [1, 2, 3, 4, 5] from by decide]
  simp +decide [Customer.groupRows, exEqualRevenue, List.filter]

/-- Witness for C4: for per-customer revenues {10,10,10,10,10} both
cutoffs are 10 and the segment counts are (5, 0, 0). -/
theorem Customer.segment_all_equal_witness :
    Customer.highCutoff exEqualRevenue = some 10 ∧
    Customer.medCutoff exEqualRevenue = some 10 ∧
    Customer.highValueCount exEqualRevenue = 5 ∧
    Customer.medValueCount exEqualRevenue = 0 ∧
    Customer.lowValueCount exEqualRevenue = 0 := by
  obtain ⟨h1, h2, h3, h4, h5⟩ := Customer.segment_all_equal exEqualRevenue 10
    (by rw [exEqualRevenue_revenue]; simp)
    (by rw [exEqualRevenue_revenue]; intro x hx; simpa using hx)
  refine ⟨h1, h2, ?_, h4, h5⟩
  rw [h3]
  decide

/-- Splitting a list by the three segment predicates counts every
element exactly once, provided the Medium cutoff is at most the High
cutoff. -/
theorem countP_segment_partition (L : List ℚ) (hc mc : ℚ) (h : mc ≤ hc) :
    L.countP (fun x => decide (hc ≤ x))
      + L.countP (fun x => decide (x < hc) && decide (mc ≤ x))
      + L.countP (fun x => decide (x < mc)) = L.length := by
  induction L with
  | nil => rfl
  | cons x t ih =>
    simp only [List.countP_cons, List.length_cons]
    rcases le_or_lt hc x with h1 | h1
    · rw [decide_eq_true h1, decide_eq_false (not_lt.2 h1),
        decide_eq_false (not_lt.2 (le_trans h h1))]
      simp
      omega
    · rcases le_or_lt mc x with h2 | h2
      · rw [decide_eq_false (not_le.2 h1), decide_eq_true h1,
          decide_eq_true h2, decide_eq_false (not_lt.2 h2)]
        simp
        omega
      · rw [decide_eq_false (not_le.2 (lt_of_lt_of_le h2 h)),
          decide_eq_true (lt_of_lt_of_le h2 h), decide_eq_false (not_le.2 h2),
          decide_eq_true h2]
        simp
        omega

/-- C9: the three segment predicates assign each customer to exactly one
segment, so High + Medium + Low = ActiveCustomers (on the empty table
all four numbers are 0). -/
theorem Customer.segment_partition (l : List Customer.Row) :
    Customer.highValueCount l + Customer.medValueCount l + Customer.lowValueCount l
      = Customer.activeCustomers l := by
  by_cases hne : Customer.customerRevenue l = []
  · have h1 : Customer.highCutoff l = none := by
      rw [Customer.highCutoff, hne, Customer.quantile, if_pos (by simp)]
    have h2 : Customer.medCutoff l = none := by
      rw [Customer.medCutoff, hne, Customer.quantile, if_pos (by simp)]
    have h3 : Customer.activeCustomers l = 0 := by
      rw [← Customer.customerRevenue_length, hne]
      rfl
    simp [Customer.highValueCount, Customer.medValueCount,
      Customer.lowValueCount, h1, h2, h3]
  · obtain ⟨mc, hc, hmq, hhq, hle⟩ := quantile_mono (Customer.customerRevenue l)
      (1 / 2) (4 / 5) hne (by norm_num) (by norm_num) (by norm_num)
    have hm : Customer.medCutoff l = some mc := by
      rw [Customer.medCutoff]
      exact hmq
    have hh : Customer.highCutoff l = some hc := by
      rw [Customer.highCutoff]
      exact hhq
    simp only [Customer.highValueCount, Customer.medValueCount,
      Customer.lowValueCount, hm, hh]
    rw [← Customer.customerRevenue_length]
    exact countP_segment_partition _ hc mc hle
